import Mathlib

/-!
Verification of the whisper_streaming transport layer.

This file gives a shallow embedding of the protocol code of the repository:

* `whisper_online_server.py` — the server side: `Connection.non_blocking_receive_audio`
  (the Stream Reassembler), `ServerProcessor.receive_audio_chunk`,
  `ServerProcessor.format_output_transcript`, `ServerProcessor.send_result` and
  `ServerProcessor.process` (the Session Processor);
* `generate_raw_realtime.py` — the client side: `send_audio_in_chunks` (the Send
  Pacer), `try_receive_response` and `wait_for_final_responses` (the Response
  Correlator).

Modelling conventions.  Byte strings are `List Nat`; Python floats are embedded as
rationals `ℚ`; the TCP byte stream arriving on a socket is a `List Nat` together
with a schedule `List Nat` of how many bytes the kernel has ready at each
`recv` call (a blocking `recv` returns at least one byte unless the peer has
closed, so availabilities are forced to be positive with `max 1`); a loop whose
iteration count is bounded by the length of the remaining stream is written with
an explicit fuel argument equal to that bound, so that every definition stays
executable.  Recognizer outputs `(beg | None, end, text)` from `process_iter`
are `Option (ℚ × ℚ × String)` with `none` for the "no text" sentinel.
-/

namespace WhisperStreaming

/-- `SAMPLING_RATE = 16000` from `whisper_online_server.py`. -/
def SAMPLING_RATE : Nat := 16000

/-- `Connection.PACKET_SIZE = 2*SAMPLING_RATE*2` — 2 seconds of 16-bit mono audio. -/
def PACKET_SIZE : Nat := 2 * SAMPLING_RATE * 2

/-!
## Stream Reassembler: `Connection.non_blocking_receive_audio`

The source loops `while len(buffer) < self.PACKET_SIZE`, each iteration calling
`self.conn.recv(bytes_needed)` with `bytes_needed = PACKET_SIZE - len(buffer)`
and appending the returned fragment.  An empty fragment means the peer closed:
the call returns `None` if the accumulation buffer is also empty and otherwise
the short buffer.  A completed buffer of exactly `PACKET_SIZE` bytes is
returned as a full frame.

`recvLoopF` models one call.  `stream` is what the peer will still send before
closing; each `recv` returns `min bytes_needed avail` bytes off the front of
`stream`, where `avail` is the head of the schedule (forced positive).  The
fuel argument bounds the iteration count; `recvFrame` supplies
`stream.length` fuel, which always suffices because every iteration consumes
at least one byte of `stream` (the source loop likewise either makes progress
or terminates).  The fuel-exhaustion arm is unreachable under that bound.
-/

def recvLoopF (fuel : Nat) (buffer stream sched : List Nat) :
    Option (List Nat) × List Nat × List Nat :=
  if PACKET_SIZE ≤ buffer.length then (some buffer, stream, sched)
  else
    match stream, fuel with
    | [], _ => (if buffer = [] then none else some buffer, [], sched)
    | _ :: _, 0 => (none, stream, sched)
    | b :: rest, fuel + 1 =>
        recvLoopF fuel
          (buffer ++ (b :: rest).take (min (PACKET_SIZE - buffer.length) (max 1 (sched.headD 1))))
          ((b :: rest).drop (min (PACKET_SIZE - buffer.length) (max 1 (sched.headD 1))))
          sched.tail

/-- One call of `Connection.non_blocking_receive_audio` on a connection whose
peer will still deliver `stream` (fragmented according to `sched`) and then
close.  Result: the returned frame (`none` = connection closed, end of
stream), the bytes the peer has not yet delivered, and the rest of the
schedule. -/
def recvFrame (stream sched : List Nat) : Option (List Nat) × List Nat × List Nat :=
  recvLoopF stream.length [] stream sched

/-- All frames returned by repeated calls of `non_blocking_receive_audio`
until it signals end of stream, with fuel bounding the number of calls. -/
def reassembleAux : Nat → List Nat → List Nat → List (List Nat)
  | 0, _, _ => []
  | fuel + 1, stream, sched =>
    match recvFrame stream sched with
    | (none, _, _) => []
    | (some f, s', sc') => f :: reassembleAux fuel s' sc'

/-- The sequence of frames the Stream Reassembler produces from a byte stream
`stream` delivered in fragments according to `sched` and followed by
end-of-stream.  `stream.length + 1` calls always suffice since every returned
frame is non-empty. -/
def reassemble (stream sched : List Nat) : List (List Nat) :=
  reassembleAux (stream.length + 1) stream sched

lemma recvLoopF_spec :
    ∀ (fuel : Nat) (buffer stream sched : List Nat),
      stream.length ≤ fuel → buffer.length ≤ PACKET_SIZE →
      ∃ c, stream = c ++ (recvLoopF fuel buffer stream sched).2.1 ∧
        (((recvLoopF fuel buffer stream sched).1 = none ∧ buffer = [] ∧ c = [] ∧
            (recvLoopF fuel buffer stream sched).2.1 = []) ∨
         (∃ f, (recvLoopF fuel buffer stream sched).1 = some f ∧ f = buffer ++ c ∧
           (f.length = PACKET_SIZE ∨
             ((recvLoopF fuel buffer stream sched).2.1 = [] ∧ f ≠ [] ∧
               f.length < PACKET_SIZE)))) := by
  intro fuel
  induction fuel with
  | zero =>
    intro buffer stream sched hf hb
    have hstream : stream = [] := List.length_eq_zero.mp (Nat.le_zero.mp hf)
    subst hstream
    rw [recvLoopF.eq_def]
    by_cases hfull : PACKET_SIZE ≤ buffer.length
    · rw [if_pos hfull]
      exact ⟨[], by simp, Or.inr ⟨buffer, rfl, by simp, Or.inl (le_antisymm hb hfull)⟩⟩
    · rw [if_neg hfull]
      by_cases hemp : buffer = []
      · refine ⟨[], by simp, Or.inl ?_⟩
        simp [hemp]
      · refine ⟨[], by simp, Or.inr ⟨buffer, ?_, by simp,
          Or.inr ⟨by simp, hemp, lt_of_not_le hfull⟩⟩⟩
        simp [hemp]
  | succ fuel ih =>
    intro buffer stream sched hf hb
    rw [recvLoopF.eq_def]
    by_cases hfull : PACKET_SIZE ≤ buffer.length
    · rw [if_pos hfull]
      exact ⟨[], by simp, Or.inr ⟨buffer, rfl, by simp, Or.inl (le_antisymm hb hfull)⟩⟩
    · rw [if_neg hfull]
      cases stream with
      | nil =>
        by_cases hemp : buffer = []
        · refine ⟨[], by simp, Or.inl ?_⟩
          simp [hemp]
        · refine ⟨[], by simp, Or.inr ⟨buffer, ?_, by simp,
            Or.inr ⟨by simp, hemp, lt_of_not_le hfull⟩⟩⟩
          simp [hemp]
      | cons b rest =>
        simp only []
        set k := min (PACKET_SIZE - buffer.length) (max 1 (sched.headD 1)) with hk
        have hk1 : 1 ≤ k := by
          have hb1 : 1 ≤ PACKET_SIZE - buffer.length := by omega
          have hs1 : 1 ≤ max 1 (sched.headD 1) := le_max_left _ _
          exact le_min hb1 hs1
        have hkP : k ≤ PACKET_SIZE - buffer.length := min_le_left _ _
        have hlen_drop : ((b :: rest).drop k).length ≤ fuel := by
          simp only [List.length_drop, List.length_cons]
          simp only [List.length_cons] at hf
          omega
        have hlen_buf : (buffer ++ (b :: rest).take k).length ≤ PACKET_SIZE := by
          simp only [List.length_append, List.length_take, List.length_cons]
          have := min_le_left k (rest.length + 1)
          omega
        obtain ⟨c', hc', hcase⟩ :=
          ih (buffer ++ (b :: rest).take k) ((b :: rest).drop k) sched.tail hlen_drop hlen_buf
        have htake_ne : (b :: rest).take k ≠ [] := by
          intro hnil
          have hlt : ((b :: rest).take k).length = min k (rest.length + 1) := by
            simp [List.length_take]
          rw [hnil] at hlt
          simp at hlt
          omega
        refine ⟨(b :: rest).take k ++ c', ?_, ?_⟩
        · rw [List.append_assoc, ← hc', List.take_append_drop]
        · rcases hcase with ⟨hr, hbe, hce, hse⟩ | ⟨f, hr, hf2, hlen⟩
          · exact absurd (List.append_eq_nil.mp hbe).2 htake_ne
          · refine Or.inr ⟨f, hr, ?_, hlen⟩
            rw [hf2, List.append_assoc]

lemma recvFrame_spec (stream sched : List Nat) :
    ∃ c, stream = c ++ (recvFrame stream sched).2.1 ∧
      (((recvFrame stream sched).1 = none ∧ c = [] ∧ (recvFrame stream sched).2.1 = []) ∨
       (∃ f, (recvFrame stream sched).1 = some f ∧ f = c ∧
         (f.length = PACKET_SIZE ∨
           ((recvFrame stream sched).2.1 = [] ∧ f ≠ [] ∧ f.length < PACKET_SIZE)))) := by
  obtain ⟨c, hc, hcase⟩ := recvLoopF_spec stream.length [] stream sched le_rfl (by simp)
  refine ⟨c, hc, ?_⟩
  rcases hcase with ⟨h1, -, h3, h4⟩ | ⟨f, h1, h2, h3⟩
  · exact Or.inl ⟨h1, h3, h4⟩
  · exact Or.inr ⟨f, h1, by simpa using h2, h3⟩

lemma reassembleAux_nil (fuel : Nat) (sched : List Nat) :
    reassembleAux fuel [] sched = [] := by
  cases fuel with
  | zero => rfl
  | succ n => rfl

lemma packet_size_pos : 0 < PACKET_SIZE := by
  simp [PACKET_SIZE, SAMPLING_RATE]

lemma reassembleAux_spec :
    ∀ (fuel : Nat) (stream sched : List Nat), stream.length < fuel →
      (reassembleAux fuel stream sched).flatten = stream ∧
      ∀ g ∈ (reassembleAux fuel stream sched).dropLast, g.length = PACKET_SIZE := by
  intro fuel
  induction fuel with
  | zero => intro stream sched hf; omega
  | succ fuel ih =>
    intro stream sched hf
    obtain ⟨c, hc, hcase⟩ := recvFrame_spec stream sched
    rcases hq : recvFrame stream sched with ⟨r, s', sc'⟩
    rw [hq] at hc hcase
    simp only at hc hcase
    rcases hcase with ⟨hr, hce, hse⟩ | ⟨f, hr, hf2, hlen⟩
    · subst hr
      have hstream : stream = [] := by rw [hc, hce, hse]; rfl
      subst hstream
      have hres : reassembleAux (fuel + 1) [] sched = [] := reassembleAux_nil _ _
      rw [hres]
      exact ⟨rfl, by intro g hg; simp at hg⟩
    · subst hr
      subst hf2
      have hres : reassembleAux (fuel + 1) stream sched = f :: reassembleAux fuel s' sc' := by
        simp only [reassembleAux, hq]
      rcases hlen with hfull | ⟨hse, hfne, -⟩
      · have hfne : f ≠ [] := by
          intro hnil
          rw [hnil] at hfull
          have := packet_size_pos
          simp at hfull
          omega
        have hs'len : s'.length < fuel := by
          have h1 : stream.length = f.length + s'.length := by
            rw [hc, List.length_append]
          have h2 : 1 ≤ f.length := List.length_pos.mpr hfne
          omega
        obtain ⟨ihj, ihd⟩ := ih s' sc' hs'len
        refine ⟨?_, ?_⟩
        · rw [hres, List.flatten_cons, ihj, hc]
        · rw [hres]
          intro g hg
          cases hrec : reassembleAux fuel s' sc' with
          | nil =>
            rw [hrec] at hg
            simp at hg
          | cons y ys =>
            rw [hrec, List.dropLast_cons₂] at hg
            rcases List.mem_cons.mp hg with hg | hg
            · rw [hg]; exact hfull
            · exact ihd g (by rw [hrec]; exact hg)
      · subst hse
        rw [hres, reassembleAux_nil]
        refine ⟨?_, ?_⟩
        · simp [hc]
        · intro g hg; simp at hg

/-- Claim C1: framing idempotence of the Stream Reassembler.  For every byte
stream delivered to `Connection.non_blocking_receive_audio` as an arbitrary
sequence of non-empty read fragments (any positive availability schedule
`sched`; each fragment returned by `recv` is a non-empty prefix of the
remaining stream, so the fragments concatenate to `stream`) followed by
end-of-stream, the concatenation of all returned frames equals the
concatenation of all fragments, and every returned frame except possibly the
last has length exactly `PACKET_SIZE`. -/
theorem reassembler_framing (stream sched : List Nat) :
    (reassemble stream sched).flatten = stream ∧
    (reassemble stream sched).dropLast.all (fun g => g.length == PACKET_SIZE) = true := by
  obtain ⟨hj, hd⟩ := reassembleAux_spec (stream.length + 1) stream sched (by omega)
  refine ⟨hj, ?_⟩
  rw [List.all_eq_true]
  intro g hg
  exact beq_iff_eq.mpr (hd g hg)

/-!
## Session Processor: `ServerProcessor`

Per-connection state from `ServerProcessor.__init__`: `last_end = None`,
`is_first = True`, `chunk_num = 0` (`min_chunk` is a constructor argument and
is passed explicitly below).
-/

structure SrvState where
  last_end : Option ℚ
  is_first : Bool
  chunk_num : Nat
deriving DecidableEq

/-- The state a fresh `ServerProcessor` starts in. -/
def initState : SrvState := ⟨none, true, 0⟩

/-- Signed 16-bit little-endian sample value of a byte pair. -/
def s16val (lo hi : Nat) : Int :=
  if lo + 256 * hi < 32768 then (lo + 256 * hi : Int) else (lo + 256 * hi : Int) - 65536

/-- Decoding raw PCM bytes into recognizer samples: `soundfile` reads s16le
pairs and `librosa.load` converts to float32 dividing by 32768 (any odd
trailing byte cannot form a sample).  One sample per byte pair. -/
def pcmDecode : List Nat → List ℚ
  | lo :: hi :: rest => ((s16val lo hi : ℚ) / 32768) :: pcmDecode rest
  | _ => []

/-- One output message of the Session Processor.  `line beg endv text` stands
for the formatted string `"%1.0f %1.0f %s" % (beg, endv, text)`;
`noInput` stands for the literal string `"No input"`. -/
inductive OutMsg where
  | line (beg endv : ℚ) (text : String)
  | noInput
deriving DecidableEq

/-- `ServerProcessor.format_output_transcript`.  `o` is the recognizer output
`(beg | None, end, text)`; on a non-sentinel output, `beg` and `end` are
converted to milliseconds, `beg` is clamped to `max(beg, self.last_end)` when
`last_end` is set, and `self.last_end` is updated to the (unclamped) `end`.
On the sentinel, the state is untouched and `"No input"` is returned. -/
def format_output_transcript (last_end : Option ℚ) (o : Option (ℚ × ℚ × String)) :
    Option ℚ × OutMsg :=
  match o with
  | some (b, e, t) =>
      (some (e * 1000),
        OutMsg.line (match last_end with | some l => max (b * 1000) l | none => b * 1000)
          (e * 1000) t)
  | none => (last_end, OutMsg.noInput)

/-- `ServerProcessor.send_result`: formats the output and sends the resulting
single message (the newline stripping `msg.replace("\n", " ")` only rewrites
the text payload; the message itself is always sent — `msg` is never `None`). -/
def send_result (st : SrvState) (o : Option (ℚ × ℚ × String)) : SrvState × OutMsg :=
  ({ st with last_end := (format_output_transcript st.last_end o).1 },
   (format_output_transcript st.last_end o).2)

/-- `ServerProcessor.receive_audio_chunk`.  The accumulation `while` loop of
the original project is commented out in this repository, so a single
`non_blocking_receive_audio` result `raw` is processed per call: `None` or
empty bytes give `None`; otherwise the decoded audio is returned, except that
on the very first chunk a decoded length below `min_chunk * SAMPLING_RATE`
samples gives `None` (discarding the audio and leaving `is_first` unchanged). -/
def receive_audio_chunk (min_chunk : ℚ) (st : SrvState) (raw : Option (List Nat)) :
    SrvState × Option (List ℚ) :=
  match raw with
  | none => (st, none)
  | some bs =>
    if bs = [] then (st, none)
    else if st.is_first ∧ ((pcmDecode bs).length : ℚ) < min_chunk * (SAMPLING_RATE : ℚ) then
      (st, none)
    else
      ({ st with is_first := false, chunk_num := st.chunk_num + 1 }, some (pcmDecode bs))

/-- `ServerProcessor.process`: the per-connection loop.  `raws` is the
sequence of `non_blocking_receive_audio` results the Stream Reassembler will
deliver; `outs` is the oracle of recognizer `process_iter` outputs, one
consumed per inserted chunk.  Returns the audio chunks handed to
`insert_audio_chunk`, the messages sent, and the final state; the loop breaks
as soon as `receive_audio_chunk` returns `None`. -/
def process (min_chunk : ℚ) :
    List (Option (List Nat)) → List (Option (ℚ × ℚ × String)) → SrvState →
    List (List ℚ) × List OutMsg × SrvState
  | [], _, st => ([], [], st)
  | raw :: raws, outs, st =>
    match receive_audio_chunk min_chunk st raw with
    | (st1, none) => ([], [], st1)
    | (st1, some a) =>
      (a :: (process min_chunk raws outs.tail (send_result st1 (outs.headD none)).1).1,
       (send_result st1 (outs.headD none)).2 ::
         (process min_chunk raws outs.tail (send_result st1 (outs.headD none)).1).2.1,
       (process min_chunk raws outs.tail (send_result st1 (outs.headD none)).1).2.2)

/-- A whole server session: the Session Processor consumes the frames the
Stream Reassembler produces from `stream`/`sched`, followed by the
end-of-stream marker `none`. -/
def serverRun (min_chunk : ℚ) (stream sched : List Nat)
    (outs : List (Option (ℚ × ℚ × String))) :
    List (List ℚ) × List OutMsg × SrvState :=
  process min_chunk ((reassemble stream sched).map some ++ [none]) outs initState

/-- `format_output_transcript` folded over a whole session's recognizer
outputs, threading `last_end` exactly as the session loop does. -/
def runFormat : Option ℚ → List (Option (ℚ × ℚ × String)) → Option ℚ × List OutMsg
  | le, [] => (le, [])
  | le, o :: os =>
    match format_output_transcript le o with
    | (le1, m) =>
      match runFormat le1 os with
      | (lf, ms) => (lf, m :: ms)

/-- The `(begin_ms, end_ms)` pairs of the non-sentinel messages, in emission
order. -/
def intervalsOf : List OutMsg → List (ℚ × ℚ)
  | [] => []
  | OutMsg.line b e _ :: ms => (b, e) :: intervalsOf ms
  | OutMsg.noInput :: ms => intervalsOf ms

lemma runFormat_chain (os : List (Option (ℚ × ℚ × String))) :
    ∀ L : ℚ,
      List.Chain' (fun p q : ℚ × ℚ => p.2 ≤ q.1) (intervalsOf (runFormat (some L) os).2) ∧
      ∀ p ∈ (intervalsOf (runFormat (some L) os).2).head?, L ≤ p.1 := by
  induction os with
  | nil => intro L; simp [runFormat, intervalsOf]
  | cons o os ih =>
    intro L
    cases o with
    | none =>
      have : runFormat (some L) (none :: os) =
          ((runFormat (some L) os).1, OutMsg.noInput :: (runFormat (some L) os).2) := by
        simp [runFormat, format_output_transcript]
      rw [this]
      simpa [intervalsOf] using ih L
    | some bet =>
      obtain ⟨b, e, t⟩ := bet
      have : runFormat (some L) (some (b, e, t) :: os) =
          ((runFormat (some (e * 1000)) os).1,
            OutMsg.line (max (b * 1000) L) (e * 1000) t ::
              (runFormat (some (e * 1000)) os).2) := by
        simp [runFormat, format_output_transcript]
      rw [this]
      simp only [intervalsOf]
      obtain ⟨ihc, ihh⟩ := ih (e * 1000)
      refine ⟨List.chain'_cons'.mpr ⟨?_, ihc⟩, ?_⟩
      · intro q hq
        exact ihh q hq
      · intro p hp
        simp only [List.head?_cons, Option.mem_def, Option.some.injEq] at hp
        subst hp
        exact le_max_right _ _

lemma runFormat_chain_none (os : List (Option (ℚ × ℚ × String))) :
    List.Chain' (fun p q : ℚ × ℚ => p.2 ≤ q.1) (intervalsOf (runFormat none os).2) := by
  induction os with
  | nil => simp [runFormat, intervalsOf]
  | cons o os ih =>
    cases o with
    | none =>
      have : runFormat none (none :: os) =
          ((runFormat none os).1, OutMsg.noInput :: (runFormat none os).2) := by
        simp [runFormat, format_output_transcript]
      rw [this]
      simpa [intervalsOf] using ih
    | some bet =>
      obtain ⟨b, e, t⟩ := bet
      have : runFormat none (some (b, e, t) :: os) =
          ((runFormat (some (e * 1000)) os).1,
            OutMsg.line (b * 1000) (e * 1000) t ::
              (runFormat (some (e * 1000)) os).2) := by
        simp [runFormat, format_output_transcript]
      rw [this]
      simp only [intervalsOf]
      obtain ⟨ihc, ihh⟩ := runFormat_chain os (e * 1000)
      exact List.chain'_cons'.mpr ⟨fun q hq => ihh q hq, ihc⟩

/-- Claim C2: non-overlap clamp.  (1) When the recognizer's raw `begin`
(converted to ms) is below the session's `last_end`, the emitted interval
begins exactly at `last_end` and its end is the raw end (in ms), and
`last_end` becomes that raw end.  (2) Consequently, over any session (any
sequence of recognizer outputs processed from the initial state), every two
consecutive emitted non-sentinel intervals satisfy
`later.begin_ms ≥ earlier.end_ms`. -/
theorem nonoverlap_clamp :
    (∀ (L b e : ℚ) (t : String), b * 1000 < L →
      format_output_transcript (some L) (some (b, e, t)) =
        (some (e * 1000), OutMsg.line L (e * 1000) t)) ∧
    (∀ os : List (Option (ℚ × ℚ × String)),
      List.Chain' (fun p q : ℚ × ℚ => p.2 ≤ q.1) (intervalsOf (runFormat none os).2)) := by
  constructor
  · intro L b e t h
    have hm : max (b * 1000) L = L := max_eq_right (le_of_lt h)
    simp [format_output_transcript, hm]
  · exact runFormat_chain_none

/-- Witness for `nonoverlap_clamp` at a concrete overlapping input. -/
theorem nonoverlap_clamp_witness :
    (0 : ℚ) * 1000 < 5 ∧
    format_output_transcript (some 5) (some ((0 : ℚ), (7 : ℚ), "hi")) =
      (some ((7 : ℚ) * 1000), OutMsg.line 5 ((7 : ℚ) * 1000) "hi") :=
  ⟨by norm_num, nonoverlap_clamp.1 5 0 7 "hi" (by norm_num)⟩

/-- Claim C10 (implicit): `format_output_transcript` always stores the raw
recognizer end time (in ms) into `last_end`, never the clamped begin; hence on
a recognizer output whose end (ms) is below the current `last_end`, the
emitted line is inverted (`end_ms < begin_ms`) and `last_end` strictly
decreases across the call. -/
theorem last_end_raw_inversion :
    (∀ (le : Option ℚ) (b e : ℚ) (t : String),
      (format_output_transcript le (some (b, e, t))).1 = some (e * 1000)) ∧
    (∀ (L b e : ℚ) (t : String), e * 1000 < L →
      format_output_transcript (some L) (some (b, e, t)) =
        (some (e * 1000), OutMsg.line (max (b * 1000) L) (e * 1000) t) ∧
      e * 1000 < max (b * 1000) L) := by
  constructor
  · intro le b e t
    cases le <;> rfl
  · intro L b e t h
    exact ⟨rfl, lt_of_lt_of_le h (le_max_right _ _)⟩

/-- Witness for `last_end_raw_inversion`: `last_end = 5000` ms, raw output
`(1 s, 2 s)`: the emitted line is `5000 → 2000` (inverted) and `last_end`
drops from `5000` to `2000`. -/
theorem last_end_raw_inversion_witness :
    (2 : ℚ) * 1000 < 5000 ∧
    (format_output_transcript (some 5000) (some ((1 : ℚ), (2 : ℚ), "x")) =
        (some ((2 : ℚ) * 1000), OutMsg.line (max ((1 : ℚ) * 1000) 5000) ((2 : ℚ) * 1000) "x") ∧
      (2 : ℚ) * 1000 < max ((1 : ℚ) * 1000) 5000) :=
  ⟨by norm_num, last_end_raw_inversion.2 5000 1 2 "x" (by norm_num)⟩

/-- Claim C7: one message per processed frame.  Over any session-loop run,
exactly one message is sent for every chunk handed to the recognizer, and the
i-th message is the literal `"No input"` exactly when the i-th recognizer
output was the sentinel — the sentinel is never filtered out. -/
theorem one_message_per_frame :
    ∀ (mc : ℚ) (raws : List (Option (List Nat)))
      (outs : List (Option (ℚ × ℚ × String))) (st : SrvState),
      ((process mc raws outs st).2.1).length = ((process mc raws outs st).1).length ∧
      ∀ i : Nat, i < ((process mc raws outs st).2.1).length →
        (((process mc raws outs st).2.1).getD i OutMsg.noInput = OutMsg.noInput ↔
          outs.getD i none = none) := by
  intro mc raws
  induction raws with
  | nil =>
    intro outs st
    simp [process]
  | cons raw raws ih =>
    intro outs st
    rcases h1 : receive_audio_chunk mc st raw with ⟨st1, a⟩
    cases a with
    | none =>
      simp [process, h1]
    | some a =>
      rcases hrec : process mc raws outs.tail (send_result st1 (outs.headD none)).1
          with ⟨feeds, msgs, st3⟩
      have hp : process mc (raw :: raws) outs st =
          (a :: feeds, (send_result st1 (outs.headD none)).2 :: msgs, st3) := by
        simp only [process, h1]
        rw [hrec]
      obtain ⟨ih1, ih2⟩ := ih outs.tail (send_result st1 (outs.headD none)).1
      rw [hrec] at ih1 ih2
      have ih1' : msgs.length = feeds.length := by simpa using ih1
      have ih2' : ∀ i : Nat, i < msgs.length →
          (msgs.getD i OutMsg.noInput = OutMsg.noInput ↔ outs.tail.getD i none = none) := by
        intro i hi
        simpa using ih2 i (by simpa using hi)
      rw [hp]
      refine ⟨by simp [ih1'], ?_⟩
      intro i hi
      cases i with
      | zero =>
        simp only [List.getD_cons_zero]
        cases outs with
        | nil =>
          simp [send_result, format_output_transcript]
        | cons o0 os =>
          cases o0 with
          | none => simp [send_result, format_output_transcript]
          | some bet =>
            obtain ⟨b, e, t⟩ := bet
            simp [send_result, format_output_transcript]
      | succ i =>
        simp only [List.getD_cons_succ]
        simp only [List.length_cons] at hi
        have hi' : i < msgs.length := by omega
        have h := ih2' i hi'
        cases outs with
        | nil => simpa using h
        | cons o0 os => simpa using h

/-- Witness for `one_message_per_frame`: a one-frame run with the sentinel
recognizer output sends exactly the `"No input"` message. -/
theorem one_message_per_frame_witness :
    (0 < ((process 0 [some [0, 0]] [Option.none] initState).2.1).length) ∧
    (((process 0 [some [0, 0]] [Option.none] initState).2.1).getD 0 OutMsg.noInput =
        OutMsg.noInput ↔
      ([Option.none] : List (Option (ℚ × ℚ × String))).getD 0 none = none) := by
  have h0 : 0 < ((process 0 [some [0, 0]] [Option.none] initState).2.1).length := by
    have hrecv : receive_audio_chunk 0 initState (some [0, 0]) =
        ({ initState with is_first := false, chunk_num := initState.chunk_num + 1 },
          some (pcmDecode [0, 0])) := by
      simp only [receive_audio_chunk]
      rw [if_neg (by simp), if_neg ?hc]
      case hc =>
        intro hcontra
        have h2 := hcontra.2
        have hlen : ((pcmDecode [0, 0]).length : ℚ) = 1 := by simp [pcmDecode]
        rw [hlen] at h2
        norm_num [SAMPLING_RATE] at h2
    simp only [process, hrecv]
    simp
  exact ⟨h0, (one_message_per_frame 0 [some [0, 0]] [Option.none] initState).2 0 h0⟩

/-- Claim C6: end-of-stream behavior of the reassembler.  (1) A zero-byte
read with an empty accumulation buffer (the peer delivers nothing more)
returns the end-of-stream marker `none`; in particular this happens on the
very first read of an empty stream.  (2) A stream that closes mid-frame
(non-empty but shorter than `PACKET_SIZE`) is returned whole as a final
incomplete frame of length strictly between 0 and `PACKET_SIZE`.  (3) On an
immediately-closed connection the Session Processor emits zero messages. -/
theorem eos_behavior :
    (∀ sched : List Nat, recvFrame [] sched = (none, [], sched)) ∧
    (∀ stream sched : List Nat, stream ≠ [] → stream.length < PACKET_SIZE →
      (recvFrame stream sched).1 = some stream ∧ (recvFrame stream sched).2.1 = [] ∧
      0 < stream.length) ∧
    (∀ (mc : ℚ) (sched : List Nat) (outs : List (Option (ℚ × ℚ × String))),
      (serverRun mc [] sched outs).2.1 = []) := by
  refine ⟨fun sched => rfl, ?_, ?_⟩
  · intro stream sched hne hlt
    obtain ⟨c, hc, hcase⟩ := recvFrame_spec stream sched
    rcases hcase with ⟨hr, hce, hse⟩ | ⟨f, hr, hf2, hlen⟩
    · exact absurd (by rw [hc, hce, hse]; rfl) hne
    · subst hf2
      rcases hlen with hfull | ⟨hse, -, -⟩
      · exfalso
        have : PACKET_SIZE ≤ stream.length := by
          rw [hc, List.length_append, hfull]
          omega
        omega
      · rw [hse] at hc
        simp only [List.append_nil] at hc
        subst hc
        exact ⟨hr, hse, List.length_pos.mpr hne⟩
  · intro mc sched outs
    have hre : reassemble [] sched = [] := reassembleAux_nil _ _
    simp only [serverRun, hre, List.map_nil, List.nil_append, process, receive_audio_chunk]

/-- Witness for `eos_behavior` part (2): a 1-byte stream followed by close
comes back as a short final frame. -/
theorem eos_behavior_witness :
    (([9] : List Nat) ≠ [] ∧ ([9] : List Nat).length < PACKET_SIZE) ∧
    ((recvFrame [9] []).1 = some [9] ∧ (recvFrame [9] []).2.1 = [] ∧
      0 < ([9] : List Nat).length) :=
  ⟨⟨by decide, by decide⟩, eos_behavior.2.1 [9] [] (by decide) (by decide)⟩

lemma pcmDecode_replicate_length : ∀ n : Nat, (pcmDecode (List.replicate (2 * n) 0)).length = n := by
  intro n
  induction n with
  | zero => rfl
  | succ n ih =>
    have h : 2 * (n + 1) = (2 * n) + 1 + 1 := by ring
    rw [h, List.replicate_succ, List.replicate_succ]
    simp only [pcmDecode, List.length_cons]
    omega

/-- Claim C4 evaluated on the code: with `min_chunk = 3` seconds
(`minlimit = 48000` samples) and a stream of two full `PACKET_SIZE` frames
(32000 samples each, 64000 samples total ≥ 48000), the session loop feeds the
recognizer nothing and terminates immediately: `receive_audio_chunk` returns
`None` on the too-short first frame (the accumulation loop is commented out),
and `process` breaks.  The claimed behavior — accumulate across frames, then
transition to streaming once the total reaches the threshold — does not
happen for any recognizer-output oracle. -/
theorem warming_up_session_break (outs : List (Option (ℚ × ℚ × String))) :
    process 3 [some (List.replicate 64000 0), some (List.replicate 64000 0)] outs initState
      = ([], [], initState) ∧
    3 * (SAMPLING_RATE : ℚ) ≤
      ((pcmDecode (List.replicate 64000 0)).length : ℚ) +
        ((pcmDecode (List.replicate 64000 0)).length : ℚ) := by
  have hlen : (pcmDecode (List.replicate 64000 0)).length = 32000 := by
    have h : (64000 : Nat) = 2 * 32000 := by norm_num
    rw [h]
    exact pcmDecode_replicate_length 32000
  constructor
  · have hne : (List.replicate 64000 (0 : Nat)) ≠ [] := by
      intro h
      have hl := congrArg List.length h
      rw [List.length_replicate, List.length_nil] at hl
      norm_num at hl
    have hcond : (initState.is_first = true) ∧
        (((pcmDecode (List.replicate 64000 0)).length : ℚ) < 3 * (SAMPLING_RATE : ℚ)) := by
      refine ⟨rfl, ?_⟩
      rw [hlen]
      norm_num [SAMPLING_RATE]
    have hrecv : receive_audio_chunk 3 initState (some (List.replicate 64000 0)) =
        (initState, none) := by
      simp only [receive_audio_chunk]
      rw [if_neg hne, if_pos hcond]
    rw [process, hrecv]
  · rw [hlen]
    push_cast
    norm_num [SAMPLING_RATE]

/-!
## Send Pacer: `send_audio_in_chunks` (`generate_raw_realtime.py`)

Per iteration the client reads up to `chunk_size` PCM bytes from the
transcoder; an empty read breaks the loop; a non-empty read is transmitted
and, when shorter than `chunk_size` (and shorter than `chunk_seconds` worth of
audio — a condition implied by the first), padded with zero bytes up to
`chunk_size` by a second transmission.
-/

/-- `bytes_per_second = 16000 * 2` — sample rate times bytes per sample. -/
def bytes_per_second : ℚ := 16000 * 2

/-- `chunk_size = int(bytes_per_second * chunk_seconds)`.  Python `int()`
truncates toward zero; for the nonnegative products that yield a usable
positive size this is the floor, and `.toNat` clamps the (degenerate)
negative case to `0` exactly as both conventions do. -/
def chunkSize (chunk_seconds : ℚ) : Nat :=
  (Rat.floor (bytes_per_second * chunk_seconds)).toNat

/-- The bytes put on the wire for one non-empty read `data`: `sendall(data)`
followed, for a short read, by `sendall` of the zero padding. -/
def sendChunkBytes (chunk_seconds : ℚ) (data : List Nat) : List Nat :=
  if data.length < chunkSize chunk_seconds ∧
      (data.length : ℚ) / bytes_per_second < chunk_seconds then
    data ++ List.replicate (chunkSize chunk_seconds - data.length) 0
  else data

/-- The send loop of `send_audio_in_chunks` over the successive reads the
transcoder pipe returns: an empty read terminates the loop, every other read
is transmitted (padded if short). -/
def send_audio_in_chunks (chunk_seconds : ℚ) : List (List Nat) → List (List Nat)
  | [] => []
  | data :: reads =>
    if data = [] then []
    else sendChunkBytes chunk_seconds data :: send_audio_in_chunks chunk_seconds reads

lemma short_read_duration_lt (cs : ℚ) (k : Nat) (hk : k < chunkSize cs) :
    (k : ℚ) / bytes_per_second < cs := by
  unfold chunkSize at hk
  rw [Int.lt_toNat] at hk
  have h1 : (k : ℤ) + 1 ≤ Rat.floor (bytes_per_second * cs) := hk
  have h2 : (((k : ℤ) + 1 : ℤ) : ℚ) ≤ bytes_per_second * cs := Rat.le_floor.mp h1
  push_cast at h2
  rw [div_lt_iff₀ (by norm_num [bytes_per_second] : (0 : ℚ) < bytes_per_second)]
  rw [mul_comm]
  linarith

/-- Claim C5: padding correctness of the Send Pacer.  (1) For a final slice of
`k` bytes with `0 < k < chunk_size`, exactly `chunk_size` bytes are
transmitted for that chunk, the first `k` of which are the slice and the rest
all zero.  (2) For a zero-byte read the send loop terminates and nothing is
transmitted. -/
theorem padding_correctness :
    (∀ (cs : ℚ) (data : List Nat), 0 < data.length → data.length < chunkSize cs →
      (sendChunkBytes cs data).length = chunkSize cs ∧
      (sendChunkBytes cs data).take data.length = data ∧
      (sendChunkBytes cs data).drop data.length =
        List.replicate (chunkSize cs - data.length) 0) ∧
    (∀ (cs : ℚ) (reads : List (List Nat)), send_audio_in_chunks cs ([] :: reads) = []) := by
  constructor
  · intro cs data h0 hk
    have hdur := short_read_duration_lt cs data.length hk
    have hpad : sendChunkBytes cs data =
        data ++ List.replicate (chunkSize cs - data.length) 0 := by
      unfold sendChunkBytes
      rw [if_pos ⟨hk, hdur⟩]
    rw [hpad]
    refine ⟨?_, ?_, ?_⟩
    · rw [List.length_append, List.length_replicate]
      omega
    · exact List.take_left _ _
    · exact List.drop_left _ _
  · intro cs reads
    rw [send_audio_in_chunks]
    simp

/-- Witness for `padding_correctness`: `chunk_seconds = 1/8000` gives
`chunk_size = 4`; the 2-byte final slice `[7, 8]` goes out as 4 bytes with
two zeros of padding. -/
theorem padding_correctness_witness :
    (0 < ([7, 8] : List Nat).length ∧ ([7, 8] : List Nat).length < chunkSize (1 / 8000)) ∧
    ((sendChunkBytes (1 / 8000) [7, 8]).length = chunkSize (1 / 8000) ∧
      (sendChunkBytes (1 / 8000) [7, 8]).take ([7, 8] : List Nat).length = [7, 8] ∧
      (sendChunkBytes (1 / 8000) [7, 8]).drop ([7, 8] : List Nat).length =
        List.replicate (chunkSize (1 / 8000) - ([7, 8] : List Nat).length) 0) := by
  have hcs : chunkSize (1 / 8000) = 4 := by
    have h4 : bytes_per_second * (1 / 8000 : ℚ) = 4 := by norm_num [bytes_per_second]
    rw [chunkSize, h4]
    decide
  exact ⟨⟨by decide, by rw [hcs]; decide⟩,
    padding_correctness.1 (1 / 8000) [7, 8] (by decide) (by rw [hcs]; decide)⟩

/-!
## Response Correlator: `try_receive_response` / `wait_for_final_responses`

The client's pending-send queue holds `(chunk_number, send_timestamp)` pairs.
`try_receive_response` returns early when the queue is empty; otherwise it
`select`s (modelled by `avail : Option payload`: `none` = socket not
readable), performs one `recv` (payload `[]` = zero-length read), splits the
stripped payload on newlines and pops the oldest record for every non-empty
piece, pairing record and piece.  The third result component counts the
`recv` calls issued, instrumenting the loop-termination claims.
Python `str.strip()` / `str.split` are modelled character-exactly on
`List Char` (`decode('utf-8', errors='replace')` is the identity here since
payloads are already text).
-/

/-- The ASCII whitespace `str.strip()` removes. -/
def isStripChar (c : Char) : Bool :=
  c = ' ' || c = '\t' || c = '\n' || c = '\r' || c = '\x0B' || c = '\x0C'

/-- Python `payload.strip()`. -/
def pyStrip (s : List Char) : List Char :=
  ((s.dropWhile isStripChar).reverse.dropWhile isStripChar).reverse

/-- Python `payload.split('\n')` — always at least one piece; empty pieces
between consecutive newlines are kept. -/
def splitNL : List Char → List (List Char)
  | [] => [[]]
  | c :: cs =>
    if c = '\n' then [] :: splitNL cs
    else
      match splitNL cs with
      | [] => [[c]]
      | g :: gs => (c :: g) :: gs

/-- The `for message in messages` loop body: each non-empty message pops the
oldest queue record (`popleft`) and is paired with it; empty messages are
skipped; messages arriving on an empty queue are dropped. -/
def popMatches : List (List Char) → List (Nat × ℚ) →
    List ((Nat × ℚ) × List Char) × List (Nat × ℚ)
  | [], q => ([], q)
  | m :: ms, q =>
    if m = [] then popMatches ms q
    else
      match q with
      | [] => popMatches ms []
      | r :: q' =>
        ((r, m) :: (popMatches ms q').1, (popMatches ms q').2)

/-- `try_receive_response(sock, chunk_timestamps)`: result = (pairings made,
remaining queue, number of `recv` calls issued). -/
def try_receive_response (avail : Option (List Char)) (q : List (Nat × ℚ)) :
    List ((Nat × ℚ) × List Char) × List (Nat × ℚ) × Nat :=
  if q = [] then ([], q, 0)
  else
    match avail with
    | none => ([], q, 0)
    | some payload =>
      if payload = [] then ([], q, 1)
      else ((popMatches (splitNL (pyStrip payload)) q).1,
            (popMatches (splitNL (pyStrip payload)) q).2, 1)

/-- `wait_for_final_responses`: polls `try_receive_response` while the queue
is non-empty and the timeout has not elapsed; `sched` lists the socket
readability/payload of each successive 0.1-second poll tick until the
timeout, so the recursion depth is the remaining tick budget.  Returns the
total number of `recv` calls issued. -/
def wait_for_final_responses : List (Option (List Char)) → List (Nat × ℚ) → Nat
  | [], _ => 0
  | avail :: rest, q =>
    if q = [] then 0
    else
      (try_receive_response avail q).2.2 +
        wait_for_final_responses rest (try_receive_response avail q).2.1

lemma popMatches_eq :
    ∀ (ms : List (List Char)) (q : List (Nat × ℚ)),
      popMatches ms q = (q.zip (ms.filter (fun m => m != [])),
        q.drop ((ms.filter (fun m => m != [])).length)) := by
  intro ms
  induction ms with
  | nil => intro q; simp [popMatches]
  | cons m ms ih =>
    intro q
    by_cases hm : m = []
    · subst hm
      simp [popMatches, ih]
    · have hfilter : (m :: ms).filter (fun x => x != []) =
          m :: ms.filter (fun x => x != []) := by
        simp [List.filter_cons, hm]
      cases q with
      | nil =>
        simp only [popMatches, if_neg hm, ih, hfilter]
        simp
      | cons r q' =>
        simp only [popMatches, if_neg hm, ih, hfilter]
        simp

/-- Claim C3: FIFO correlation.  If `N` pending send records are queued (in
send order) and one receive delivers a payload whose stripped split has
exactly `N` non-empty lines, then the records are popped oldest-first, the
i-th line is paired with the i-th oldest record (pure positional `zip` —
line content is never consulted for matching), and the queue is left empty. -/
theorem fifo_correlation (payload : List Char) (q : List (Nat × ℚ)) (N : Nat)
    (hq : q.length = N) (hm : (splitNL (pyStrip payload)).length = N)
    (hne : ∀ m ∈ splitNL (pyStrip payload), m ≠ []) :
    (try_receive_response (some payload) q).1 = q.zip (splitNL (pyStrip payload)) ∧
    (try_receive_response (some payload) q).2.1 = [] := by
  have hfilter : (splitNL (pyStrip payload)).filter (fun m => m != []) =
      splitNL (pyStrip payload) :=
    List.filter_eq_self.mpr (fun m hmem => by simpa using hne m hmem)
  by_cases hq0 : q = []
  · subst hq0
    simp [try_receive_response]
  · have hp0 : payload ≠ [] := by
      intro h
      subst h
      have hsplit : splitNL (pyStrip ([] : List Char)) = [[]] := rfl
      exact hne [] (by rw [hsplit]; simp) rfl
    simp only [try_receive_response, if_neg hq0, if_neg hp0]
    rw [popMatches_eq, hfilter]
    refine ⟨rfl, ?_⟩
    rw [hm, ← hq, List.drop_length]

/-- Witness for `fifo_correlation`: payload `"hi\nok"`, two queued records. -/
theorem fifo_correlation_witness :
    (([(1, (0 : ℚ)), (2, 0)] : List (Nat × ℚ)).length = 2 ∧
      (splitNL (pyStrip ['h', 'i', '\n', 'o', 'k'])).length = 2 ∧
      ∀ m ∈ splitNL (pyStrip ['h', 'i', '\n', 'o', 'k']), m ≠ []) ∧
    ((try_receive_response (some ['h', 'i', '\n', 'o', 'k']) [(1, (0 : ℚ)), (2, 0)]).1 =
        ([(1, (0 : ℚ)), (2, 0)] : List (Nat × ℚ)).zip
          (splitNL (pyStrip ['h', 'i', '\n', 'o', 'k'])) ∧
      (try_receive_response (some ['h', 'i', '\n', 'o', 'k']) [(1, (0 : ℚ)), (2, 0)]).2.1 = []) :=
  ⟨⟨by decide, by decide, by decide⟩,
    fifo_correlation ['h', 'i', '\n', 'o', 'k'] [(1, 0), (2, 0)] 2
      (by decide) (by decide) (by decide)⟩

/-- Claim C8 counterexample: the payload `"a\nb"` ends in the trailing
fragment `"b"` with no terminating newline, yet with two queued records
`try_receive_response` consumes BOTH records — the trailing partial message
is not buffered for a future read; it immediately consumes a pending send
record, contrary to the claim. -/
theorem trailing_fragment_consumed :
    (try_receive_response (some ['a', '\n', 'b']) [(1, (0 : ℚ)), (2, 0)]).2.1 = [] ∧
    (try_receive_response (some ['a', '\n', 'b']) [(1, (0 : ℚ)), (2, 0)]).1 =
      [((1, (0 : ℚ)), ['a']), ((2, (0 : ℚ)), ['b'])] := by
  exact ⟨by decide, by decide⟩

/-- Claim C8 amended: the client performs no partial-message buffering.  Each
receive consumes one pending send record per non-empty piece of the stripped
payload split on newlines — including a trailing piece not terminated by a
newline — pairing records with pieces positionally. -/
theorem no_partial_buffering (payload : List Char) (q : List (Nat × ℚ))
    (hp : payload ≠ []) :
    (try_receive_response (some payload) q).1 =
      q.zip ((splitNL (pyStrip payload)).filter (fun m => m != [])) ∧
    (try_receive_response (some payload) q).2.1 =
      q.drop (((splitNL (pyStrip payload)).filter (fun m => m != [])).length) := by
  by_cases hq0 : q = []
  · subst hq0
    simp [try_receive_response]
  · simp only [try_receive_response, if_neg hq0, if_neg hp]
    rw [popMatches_eq]
    exact ⟨rfl, rfl⟩

/-- Witness for `no_partial_buffering` at payload `"x\ny"` with one record. -/
theorem no_partial_buffering_witness :
    (['x', '\n', 'y'] : List Char) ≠ [] ∧
    ((try_receive_response (some ['x', '\n', 'y']) [(3, (0 : ℚ))]).1 =
        ([(3, (0 : ℚ))] : List (Nat × ℚ)).zip
          ((splitNL (pyStrip ['x', '\n', 'y'])).filter (fun m => m != [])) ∧
      (try_receive_response (some ['x', '\n', 'y']) [(3, (0 : ℚ))]).2.1 =
        ([(3, (0 : ℚ))] : List (Nat × ℚ)).drop
          (((splitNL (pyStrip ['x', '\n', 'y'])).filter (fun m => m != [])).length)) :=
  ⟨by decide, no_partial_buffering ['x', '\n', 'y'] [(3, 0)] (by decide)⟩

/-- Claim C9 counterexample: with one unanswered record, two poll ticks whose
`recv` both return zero bytes make `wait_for_final_responses` issue TWO
`recv` calls — the loop does not stop issuing reads after the first
zero-length read (it keeps polling until the timeout elapses or the queue
empties), contrary to the claim for the client's loops. -/
theorem zero_read_keeps_polling :
    wait_for_final_responses [some [], some []] [(1, (0 : ℚ))] = 2 ∧
    wait_for_final_responses [some [], some []] [(1, (0 : ℚ))] ≠ 1 := by
  exact ⟨by decide, by decide⟩

/-- Claim C9 amended: a zero-length read is treated as normal (not an error)
by both sides, and it stops the server's read loop — the reassembler of a
peer that delivers nothing signals end-of-stream and produces no frames —
but it does NOT stop the client's loops: `try_receive_response` treats it as
a no-op that pairs nothing and leaves the queue unchanged, and
`wait_for_final_responses` keeps issuing one more `recv` on the next tick
while records remain, stopping only on an empty queue or timeout. -/
theorem zero_read_termination :
    (∀ sched : List Nat, reassemble [] sched = []) ∧
    (∀ q : List (Nat × ℚ), (try_receive_response (some []) q).2.1 = q ∧
      (try_receive_response (some []) q).1 = []) ∧
    (∀ (rest : List (Option (List Char))) (q : List (Nat × ℚ)), q ≠ [] →
      wait_for_final_responses (some [] :: rest) q =
        1 + wait_for_final_responses rest q) := by
  refine ⟨fun sched => reassembleAux_nil _ _, ?_, ?_⟩
  · intro q
    by_cases hq : q = []
    · subst hq
      simp [try_receive_response]
    · simp [try_receive_response, hq]
  · intro rest q hq
    have ht2 : (try_receive_response (some ([] : List Char)) q).2.2 = 1 := by
      simp [try_receive_response, hq]
    have ht1 : (try_receive_response (some ([] : List Char)) q).2.1 = q := by
      simp [try_receive_response, hq]
    rw [wait_for_final_responses, if_neg hq, ht2, ht1]

/-- Witness for `zero_read_termination` with one record and one tick. -/
theorem zero_read_termination_witness :
    ([(1, (0 : ℚ))] : List (Nat × ℚ)) ≠ [] ∧
    wait_for_final_responses [some []] [(1, (0 : ℚ))] =
      1 + wait_for_final_responses [] [(1, (0 : ℚ))] :=
  ⟨by decide, zero_read_termination.2.2 [] [(1, 0)] (by decide)⟩

end WhisperStreaming
